import Mathlib

/-!
Shallow embedding of the model-selection and recognition layer of the
AIND-Recognizer repository (`my_model_selectors.py`, `my_recognizer.py`).

Modelling conventions:
* Python floats are embedded as rationals (`ℚ`); the sentinel values
  `float("inf")` / `float("-inf")` used as initial best scores are embedded as
  `⊤ : WithTop ℚ` / `⊥ : WithBot ℚ`.
* A `GaussianHMM` object is determined, for a fixed `random_state` and
  `covariance_type`, by its requested number of hidden states and by the data
  it was last fitted on, so it is embedded as the pair `HMM`.
* The third-party fitting and scoring routines (hmmlearn) are black boxes that
  may raise; they are embedded as an environment `Env` of total functions into
  `Bool` / `Option ℚ`, where `none` stands for a raised exception.
  `math.log` on the size of the training matrix is likewise abstracted as an
  arbitrary function `mlog : Nat → ℚ` of the environment.
* Python dictionaries (`self.hwords`, the recognizer's `models` argument) are
  embedded as association lists in dictionary iteration order.
-/

namespace ASL

/-- One frame (row) of a feature matrix: a list of rational feature values. -/
abbrev Row : Type := List ℚ

/-- The pair `(self.X, self.lengths)`: a combined feature matrix together with
the per-sequence lengths, as produced by the data-loading layer. -/
structure XLen where
  X : List Row
  lengths : List Nat
deriving DecidableEq

/-- A fitted `GaussianHMM`: its `n_components` and the combined data it was
last fitted on (which, for a fixed seed, determines its parameters). -/
structure HMM where
  n_components : Nat
  trainedOn : XLen
deriving DecidableEq

/-- The black-box statistical library. `fitOk n xl` tells whether
`GaussianHMM(n_components=n, ...).fit(xl.X, xl.lengths)` succeeds;
`score m xl` is the log-likelihood `m.score(xl.X, xl.lengths)`, `none` when
the call raises; `mlog` abstracts `math.log` applied to a row count. -/
structure Env where
  fitOk : Nat → XLen → Bool
  score : HMM → XLen → Option ℚ
  mlog : Nat → ℚ

/-- Python's `range(a, b)`: the list `[a, a+1, ..., b-1]`. -/
def pyRange (a b : Nat) : List Nat :=
  List.range' a (b - a)

/-- Embedding of `ModelSelector.base_model`: fit a model with `numStates` hidden states on
the target category's combined data; on any fitting failure the exception is
caught and `None` is returned. -/
def base_model (env : Env) (xl : XLen) (numStates : Nat) : Option HMM :=
  if env.fitOk numStates xl then some ⟨numStates, xl⟩ else none

/-- Embedding of `SelectorConstant.select`: `base_model(self.n_constant)`, no search. -/
def selectConstant (env : Env) (xl : XLen) (nConstant : Nat) : Option HMM :=
  base_model env xl nConstant

/-- The body of one iteration of `SelectorBIC.select`'s loop: fit, score on
the training data, and compute `BIC = -2 * logL + p * logN` with
`p = -1 + n ** 2 + n * len(self.X[0]) * 2` and `logN = math.log(len(self.X))`.
Any step raising (fit failure makes `model` `None`, so `model.score` raises
`AttributeError`; `self.X[0]` raises `IndexError` on an empty matrix) is
caught by the surrounding `except: pass`, which `none` models. -/
def evalBIC (env : Env) (xl : XLen) (n : Nat) : Option (ℚ × HMM) :=
  match base_model env xl n with
  | none => none
  | some m =>
    match env.score m xl with
    | none => none
    | some logL =>
      match xl.X.head? with
      | none => none
      | some row =>
        some (-2 * logL
            + (-1 + (n : ℚ) ^ 2 + (n : ℚ) * (row.length : ℚ) * 2)
              * env.mlog xl.X.length,
          m)

/-- The loop of `SelectorBIC.select`: fold over the candidate state counts,
keeping `(min_score, best_model)`; a candidate updates the pair exactly when
its BIC is strictly below the current minimum (initially `float("inf")`). -/
def selectBICList (env : Env) (xl : XLen) :
    List Nat → WithTop ℚ → Option HMM → WithTop ℚ × Option HMM
  | [], minScore, best => (minScore, best)
  | n :: rest, minScore, best =>
    match evalBIC env xl n with
    | none => selectBICList env xl rest minScore best
    | some (v, m) =>
      if (v : WithTop ℚ) < minScore then
        selectBICList env xl rest (v : WithTop ℚ) (some m)
      else
        selectBICList env xl rest minScore best

/-- Embedding of `SelectorBIC.select`: search `range(self.min_n_components,
self.max_n_components + 1)` starting from `min_score = float("inf")`,
`best_model = None`. -/
def selectBIC (env : Env) (xl : XLen) (minN maxN : Nat) : Option HMM :=
  (selectBICList env xl (pyRange minN (maxN + 1)) ⊤ none).2

/-- The inner loop of `SelectorDIC.select`: accumulate
`sum_anti_logL` and `word_count` over every word of `self.hwords` other than
`self.this_word`; a single failing `model.score` call raises and, `none`,
aborts the whole accumulation.  (The summation order is immaterial over `ℚ`.) -/
def antiScores (env : Env) (m : HMM) (tw : String) :
    List (String × XLen) → Option (ℚ × Nat)
  | [] => some (0, 0)
  | (w, dxl) :: rest =>
    if w = tw then antiScores env m tw rest
    else
      match env.score m dxl, antiScores env m tw rest with
      | some s, some (acc, c) => some (acc + s, c + 1)
      | _, _ => none

/-- The body of one iteration of `SelectorDIC.select`'s loop: fit (skipping
the candidate when `base_model` returned `None`, via `if model:`), score the
target data, accumulate the anti-likelihoods, and compute
`DIC = logL - sum_anti_logL / word_count`.  A `word_count` of zero raises
`ZeroDivisionError`, which the surrounding `except: pass` catches — `none`. -/
def evalDIC (env : Env) (hwords : List (String × XLen)) (tw : String)
    (xl : XLen) (n : Nat) : Option (ℚ × HMM) :=
  match base_model env xl n with
  | none => none
  | some m =>
    match env.score m xl with
    | none => none
    | some logL =>
      match antiScores env m tw hwords with
      | none => none
      | some (s, c) =>
        if c = 0 then none
        else some (logL - s / (c : ℚ), m)

/-- The loop of `SelectorDIC.select`: fold keeping `(max_score, best_model)`;
a candidate updates the pair exactly when its DIC is strictly above the
current maximum (initially `float("-inf")`). -/
def selectDICList (env : Env) (hwords : List (String × XLen)) (tw : String)
    (xl : XLen) :
    List Nat → WithBot ℚ → Option HMM → WithBot ℚ × Option HMM
  | [], maxScore, best => (maxScore, best)
  | n :: rest, maxScore, best =>
    match evalDIC env hwords tw xl n with
    | none => selectDICList env hwords tw xl rest maxScore best
    | some (v, m) =>
      if maxScore < (v : WithBot ℚ) then
        selectDICList env hwords tw xl rest (v : WithBot ℚ) (some m)
      else
        selectDICList env hwords tw xl rest maxScore best

/-- Embedding of `SelectorDIC.select`. -/
def selectDIC (env : Env) (hwords : List (String × XLen)) (tw : String)
    (xl : XLen) (minN maxN : Nat) : Option HMM :=
  (selectDICList env hwords tw xl (pyRange minN (maxN + 1)) ⊥ none).2

/-- Modelled from the spec: `combine_sequences` from `asl_utils` (a repository
utility not under `src/`), described as the "concatenation of multiple
variable-length sequences into one matrix plus a vector recording each
sequence's row count", applied to the sequences picked out by a list of
indices. -/
def combine (idxs : List Nat) (seqs : List (List Row)) : XLen :=
  let chosen := idxs.filterMap (fun i => seqs.get? i)
  ⟨chosen.flatten, chosen.map List.length⟩

/-- The deterministic (no-shuffle) fold generator of sklearn's
`KFold(n_splits=k).split` on `n` samples: the first `n % k` test folds have
`n / k + 1` consecutive indices, the rest `n / k`; each training index list is
the ascending complement of the test fold. -/
def kfoldSplits (k n : Nat) : List (List Nat × List Nat) :=
  (List.range k).map (fun i =>
    let q := n / k
    let r := n % k
    let start := i * q + min i r
    let size := q + (if i < r then 1 else 0)
    ((List.range n).filter (fun j => decide (j < start) || decide (start + size ≤ j)),
     List.range' start size))

/-- The fold loop of `SelectorCV.select` for one candidate: thread the single
`model` object through the folds.  Each fold combines its training and test
sequences, refits `model` in place on the training part and scores the test
part; a fold whose fit or score raises is skipped (`except: pass`), a fold
whose score succeeds appends its log-likelihood.  When `base_model` returned
`None`, `model.fit` raises `AttributeError` in every fold, so nothing is
collected.  A fit failure leaves the model object unchanged; a fit success
replaces its parameters even when the subsequent score then fails.  Returns
the final state of the model object together with the collected scores. -/
def cvFolds (env : Env) (seqs : List (List Row)) :
    List (List Nat × List Nat) → Option HMM → Option HMM × List ℚ
  | [], m => (m, [])
  | (tr, te) :: rest, m =>
    match m with
    | none => cvFolds env seqs rest none
    | some hm =>
      let trXL := combine tr seqs
      let teXL := combine te seqs
      if env.fitOk hm.n_components trXL then
        match env.score ⟨hm.n_components, trXL⟩ teXL with
        | some l =>
          match cvFolds env seqs rest (some ⟨hm.n_components, trXL⟩) with
          | (mF, ls) => (mF, l :: ls)
        | none => cvFolds env seqs rest (some ⟨hm.n_components, trXL⟩)
      else cvFolds env seqs rest (some hm)

/-- Embedding of `np.mean` on a list of collected fold scores: the arithmetic mean for a
non-empty list; on the empty list numpy returns `nan` (with a warning that is
not raised as an exception), embedded as `none`.  Every comparison of `nan`
with a float is `False`, which is how the `none` case is consumed below. -/
def npMean (l : List ℚ) : Option ℚ :=
  if l = [] then none else some (l.sum / (l.length : ℚ))

/-- The loop of `SelectorCV.select`: for each candidate `n`, fit on the full
combined data, run the folds, take `np.mean` of the collected scores and
update `(max_score, best_model)` exactly when `mean_score > max_score` — which
is `False` whenever `mean_score` is `nan` (`none`).  `best_model` is bound to
the model object's final state after all folds of that candidate. -/
def selectCVList (env : Env) (seqs : List (List Row)) (xlfull : XLen)
    (folds : List (List Nat × List Nat)) :
    List Nat → WithBot ℚ → Option HMM → WithBot ℚ × Option HMM
  | [], maxScore, best => (maxScore, best)
  | n :: rest, maxScore, best =>
    match cvFolds env seqs folds (base_model env xlfull n) with
    | (mF, ls) =>
      match npMean ls with
      | none => selectCVList env seqs xlfull folds rest maxScore best
      | some v =>
        if maxScore < (v : WithBot ℚ) then
          selectCVList env seqs xlfull folds rest (v : WithBot ℚ) mF
        else
          selectCVList env seqs xlfull folds rest maxScore best

/-- Embedding of `SelectorCV.select`.  `KFold(min(len(self.sequences), 3))` is constructed
before the loop and outside any `try`; sklearn's `_BaseKFold.__init__` raises
`ValueError` when `n_splits <= 1`, so with fewer than two training sequences
the whole call propagates the exception, embedded as `Except.error`.  The
generator `split_method.split(self.sequences)` itself never raises here
because `min(len, 3) <= len`. -/
def selectCV (env : Env) (seqs : List (List Row)) (xlfull : XLen)
    (minN maxN : Nat) : Except String (Option HMM) :=
  let k := min seqs.length 3
  if k ≤ 1 then
    Except.error "k-fold cross-validation requires at least one train-test split"
  else
    Except.ok
      (selectCVList env seqs xlfull (kfoldSplits k seqs.length)
        (pyRange minN (maxN + 1)) ⊥ none).2

/-- The training subset of the last fold (in fold order) whose in-place refit
of an `nc`-state model succeeds, if any.  This is what determines the
parameters the model object carries when `SelectorCV.select` returns it. -/
def lastFitTrain (env : Env) (nc : Nat) (seqs : List (List Row)) :
    List (List Nat × List Nat) → Option XLen
  | [] => none
  | (tr, _te) :: rest =>
    match lastFitTrain env nc seqs rest with
    | some x => some x
    | none =>
      if env.fitOk nc (combine tr seqs) then some (combine tr seqs) else none

/-- The value recorded in a recognizer `ScoreTable` for one category: the
score when `model.score` succeeds, `float("-inf")` (`⊥`) when it raises. -/
def recorded (env : Env) (m : HMM) (x : XLen) : WithBot ℚ :=
  match env.score m x with
  | some s => (s : WithBot ℚ)
  | none => ⊥

/-- The per-item loop of `recognize`: iterate over the `models` mapping in
iteration order, building the item's score table and threading
`(best_score, best_guess)`; a successful score updates the pair exactly when
it is strictly above the current best (initially `float("-inf")`, `None`),
while a failing score records `float("-inf")` and leaves the pair alone. -/
def recognizeItemAux (env : Env) (x : XLen) :
    List (String × HMM) → WithBot ℚ → Option String →
      List (String × WithBot ℚ) × Option String
  | [], _, g => ([], g)
  | (w, m) :: rest, bestS, g =>
    match env.score m x with
    | some s =>
      let next :=
        if bestS < (s : WithBot ℚ) then
          recognizeItemAux env x rest (s : WithBot ℚ) (some w)
        else
          recognizeItemAux env x rest bestS g
      ((w, (s : WithBot ℚ)) :: next.1, next.2)
    | none =>
      let next := recognizeItemAux env x rest bestS g
      ((w, (⊥ : WithBot ℚ)) :: next.1, next.2)

/-- One test item of `recognize`: its score table and its best guess. -/
def recognizeItem (env : Env) (models : List (String × HMM)) (x : XLen) :
    List (String × WithBot ℚ) × Option String :=
  recognizeItemAux env x models ⊥ none

/-- Embedding of `recognize`: for each test item, in test-set enumeration order, the score
table and the best guess. -/
def recognize (env : Env) (models : List (String × HMM)) (items : List XLen) :
    List (List (String × WithBot ℚ)) × List (Option String) :=
  (items.map (fun x => (recognizeItem env models x).1),
   items.map (fun x => (recognizeItem env models x).2))

/-! Concrete data used by witnesses and counterexamples. -/

/-- A one-frame, one-feature combined matrix. -/
def xlW : XLen := ⟨[[0]], [1]⟩

/-- A second one-frame, one-feature combined matrix, distinct from `xlW`. -/
def xlB : XLen := ⟨[[1]], [1]⟩

/-- Two distinguishable one-frame training sequences. -/
def seqsC : List (List Row) := [[[0]], [[1]]]

/-- The combined matrix of both sequences of `seqsC`. -/
def xlfullC : XLen := ⟨[[0], [1]], [1, 1]⟩

/-- An environment in which every fit and every score succeeds. -/
def envT : Env := ⟨fun _ _ => true, fun _ _ => some 1, fun _ => 0⟩

/-- An environment in which every fit succeeds and every score raises. -/
def envN : Env := ⟨fun _ _ => true, fun _ _ => none, fun _ => 0⟩

/-- An environment in which every fit fails. -/
def envF : Env := ⟨fun _ _ => false, fun _ _ => some 1, fun _ => 0⟩

/-- An environment in which only two-state models fit, every score is `5`,
and the abstracted `math.log` is constantly `1`. -/
def envW : Env := ⟨fun n _ => n == 2, fun _ _ => some 5, fun _ => 1⟩

/-- An environment in which fitting fails exactly for five-state models. -/
def env58 : Env := ⟨fun n _ => !(n == 5), fun _ _ => some 1, fun _ => 0⟩

/-- An environment in which every fit succeeds and scoring fails exactly on
the data `xlB`. -/
def env9 : Env :=
  ⟨fun _ _ => true, fun _ x => if x = xlB then none else some 1, fun _ => 0⟩

/-- An environment for the cross-validation counterexample: every fit
succeeds, and a model scores successfully exactly when its current parameters
come from a fit on `xlB`. -/
def envC : Env :=
  ⟨fun _ _ => true, fun m _ => if m.trainedOn = xlB then some 0 else none,
   fun _ => 0⟩

/-- A one-entry recognizer model mapping. -/
def modelsA : List (String × HMM) := [("A", ⟨2, xlW⟩)]

/-- A two-entry recognizer model mapping. -/
def modelsAB : List (String × HMM) := [("A", ⟨2, xlW⟩), ("B", ⟨2, xlB⟩)]

end ASL

namespace ASL

/-! Basic lemmas. -/

theorem mem_pyRange {a b n : Nat} : n ∈ pyRange a b ↔ a ≤ n ∧ n < b := by
  unfold pyRange
  rw [List.mem_range'_1]
  omega

theorem evalBIC_none_of_fitFail {env : Env} {xl : XLen} {n : Nat}
    (h : env.fitOk n xl = false) : evalBIC env xl n = none := by
  simp [evalBIC, base_model, h]

theorem evalBIC_some_elim {env : Env} {xl : XLen} {n : Nat} {v : ℚ} {m : HMM}
    (h : evalBIC env xl n = some (v, m)) :
    env.fitOk n xl = true ∧ m = ⟨n, xl⟩ := by
  unfold evalBIC base_model at h
  cases hfit : env.fitOk n xl
  · simp [hfit] at h
  · simp only [hfit, if_true] at h
    cases hs : env.score ⟨n, xl⟩ xl
    · simp [hs] at h
    · simp only [hs] at h
      cases hh : xl.X.head?
      · simp [hh] at h
      · simp only [hh, Option.some.injEq, Prod.mk.injEq] at h
        exact ⟨rfl, h.2.symm⟩

theorem evalBIC_formula {env : Env} {xl : XLen} {n : Nat} {logL : ℚ}
    {r : Row} {rows : List Row}
    (hfit : env.fitOk n xl = true) (hs : env.score ⟨n, xl⟩ xl = some logL)
    (hX : xl.X = r :: rows) :
    evalBIC env xl n = some
      (-2 * logL
        + (((n : ℚ) - 1) + (n : ℚ) * ((n : ℚ) - 1) + 2 * (n : ℚ) * (r.length : ℚ))
          * env.mlog xl.X.length,
       ⟨n, xl⟩) := by
  have hX' : xl.X.head? = some r := by rw [hX]; rfl
  simp only [evalBIC, base_model, hfit, if_true, hs, hX', Option.some.injEq,
    Prod.mk.injEq]
  exact ⟨by ring, trivial⟩

/-! The accumulator fold of `SelectorBIC.select`. -/

theorem selectBICList_fst_le (env : Env) (xl : XLen) :
    ∀ (l : List Nat) (acc : WithTop ℚ) (b : Option HMM),
      (selectBICList env xl l acc b).1 ≤ acc ∧
      ∀ n ∈ l, ∀ v : ℚ, ∀ m : HMM, evalBIC env xl n = some (v, m) →
        (selectBICList env xl l acc b).1 ≤ (v : WithTop ℚ) := by
  intro l
  induction l with
  | nil =>
    intro acc b
    simp [selectBICList]
  | cons n rest ih =>
    intro acc b
    cases he : evalBIC env xl n with
    | none =>
      simp only [selectBICList, he]
      refine ⟨(ih acc b).1, ?_⟩
      intro n' hn' v m hv
      rcases List.mem_cons.mp hn' with rfl | hmem
      · rw [he] at hv
        exact absurd hv (by simp)
      · exact (ih acc b).2 n' hmem v m hv
    | some p =>
      obtain ⟨v0, m0⟩ := p
      simp only [selectBICList, he]
      by_cases hlt : (v0 : WithTop ℚ) < acc
      · rw [if_pos hlt]
        refine ⟨le_trans (ih _ _).1 (le_of_lt hlt), ?_⟩
        intro n' hn' v m hv
        rcases List.mem_cons.mp hn' with rfl | hmem
        · rw [he] at hv
          simp only [Option.some.injEq, Prod.mk.injEq] at hv
          rw [← hv.1]
          exact (ih _ _).1
        · exact (ih _ _).2 n' hmem v m hv
      · rw [if_neg hlt]
        refine ⟨(ih _ _).1, ?_⟩
        intro n' hn' v m hv
        rcases List.mem_cons.mp hn' with rfl | hmem
        · rw [he] at hv
          simp only [Option.some.injEq, Prod.mk.injEq] at hv
          rw [← hv.1]
          exact le_trans (ih _ _).1 (not_lt.mp hlt)
        · exact (ih _ _).2 n' hmem v m hv

theorem selectBICList_origin (env : Env) (xl : XLen) :
    ∀ (l : List Nat) (acc : WithTop ℚ) (b : Option HMM),
      ((selectBICList env xl l acc b).1 = acc ∧
       (selectBICList env xl l acc b).2 = b) ∨
      ∃ n ∈ l, ∃ v : ℚ, ∃ m : HMM, evalBIC env xl n = some (v, m) ∧
        (selectBICList env xl l acc b).1 = (v : WithTop ℚ) ∧
        (selectBICList env xl l acc b).2 = some m := by
  intro l
  induction l with
  | nil =>
    intro acc b
    left
    simp [selectBICList]
  | cons n rest ih =>
    intro acc b
    cases he : evalBIC env xl n with
    | none =>
      simp only [selectBICList, he]
      rcases ih acc b with h | ⟨n', hn', v, m, hv, h1, h2⟩
      · exact Or.inl h
      · exact Or.inr ⟨n', List.mem_cons_of_mem _ hn', v, m, hv, h1, h2⟩
    | some p =>
      obtain ⟨v0, m0⟩ := p
      simp only [selectBICList, he]
      by_cases hlt : (v0 : WithTop ℚ) < acc
      · rw [if_pos hlt]
        rcases ih (v0 : WithTop ℚ) (some m0) with ⟨h1, h2⟩ | ⟨n', hn', v, m, hv, h1, h2⟩
        · exact Or.inr ⟨n, List.mem_cons_self n rest, v0, m0, he, h1, h2⟩
        · exact Or.inr ⟨n', List.mem_cons_of_mem _ hn', v, m, hv, h1, h2⟩
      · rw [if_neg hlt]
        rcases ih acc b with h | ⟨n', hn', v, m, hv, h1, h2⟩
        · exact Or.inl h
        · exact Or.inr ⟨n', List.mem_cons_of_mem _ hn', v, m, hv, h1, h2⟩

end ASL

namespace ASL

/-- C1: for every state count `n` in `[min_n_components, max_n_components]`
that fits successfully (and, implicitly, scores successfully on the training
data), `SelectorBIC.select` computes
`BIC(n) = -2 * logL(n) + p(n) * log(N)` with `N` the number of rows of the
combined matrix and `p(n) = (n - 1) + n*(n - 1) + 2*n*d`, `d` the feature
dimension; it returns the candidate minimizing this score over all
successfully-fit state counts in the range, and `none` if no candidate
succeeds. -/
theorem claim_C1_bic_select (env : Env) (xl : XLen) (minN maxN : Nat)
    (hX : xl.X ≠ [])
    (hs : ∀ n ∈ pyRange minN (maxN + 1), env.fitOk n xl = true →
      (env.score ⟨n, xl⟩ xl).isSome) :
    (∀ n : Nat, ∀ logL : ℚ, env.fitOk n xl = true →
        env.score ⟨n, xl⟩ xl = some logL →
        evalBIC env xl n = some
          (-2 * logL
            + (((n : ℚ) - 1) + (n : ℚ) * ((n : ℚ) - 1)
                + 2 * (n : ℚ) * (xl.X.headI.length : ℚ))
              * env.mlog xl.X.length,
           ⟨n, xl⟩))
  ∧ ((∀ n ∈ pyRange minN (maxN + 1), env.fitOk n xl = false) →
      selectBIC env xl minN maxN = none)
  ∧ (∀ m : HMM, selectBIC env xl minN maxN = some m →
      ∃ n ∈ pyRange minN (maxN + 1), env.fitOk n xl = true ∧ m = ⟨n, xl⟩ ∧
        ∀ n' ∈ pyRange minN (maxN + 1), env.fitOk n' xl = true →
          ∀ v v' : ℚ, (evalBIC env xl n).map Prod.fst = some v →
            (evalBIC env xl n').map Prod.fst = some v' → v ≤ v')
  ∧ ((∃ n ∈ pyRange minN (maxN + 1), env.fitOk n xl = true) →
      ∃ m : HMM, selectBIC env xl minN maxN = some m) := by
  obtain ⟨r, rows, hXeq⟩ := List.exists_cons_of_ne_nil hX
  have hhead : xl.X.headI = r := by rw [hXeq]; rfl
  refine ⟨?_, ?_, ?_, ?_⟩
  · intro n logL hfit hscore
    rw [hhead]
    exact evalBIC_formula hfit hscore hXeq
  · intro hall
    unfold selectBIC
    rcases selectBICList_origin env xl (pyRange minN (maxN + 1)) ⊤ none with
      ⟨_, h2⟩ | ⟨n, hn, v, m, hv, _, _⟩
    · exact h2
    · rw [evalBIC_none_of_fitFail (hall n hn)] at hv
      exact Option.noConfusion hv
  · intro m hm
    unfold selectBIC at hm
    rcases selectBICList_origin env xl (pyRange minN (maxN + 1)) ⊤ none with
      ⟨_, h2⟩ | ⟨n, hn, v, m0, hv, hfst, hsnd⟩
    · rw [hm] at h2
      exact absurd h2 (by simp)
    · have hm0 : m0 = m := by
        rw [hm] at hsnd
        exact (Option.some.injEq _ _ ▸ hsnd).symm
      obtain ⟨hfit, hmeq⟩ := evalBIC_some_elim hv
      refine ⟨n, hn, hfit, by rw [← hm0, hmeq], ?_⟩
      intro n' hn' hfit' v1 v1' hv1 hv1'
      rw [hv] at hv1
      simp only [Option.map_some', Option.some.injEq] at hv1
      cases he' : evalBIC env xl n' with
      | none =>
        rw [he'] at hv1'
        exact absurd hv1' (by simp)
      | some p =>
        obtain ⟨vp, mp⟩ := p
        rw [he'] at hv1'
        simp only [Option.map_some', Option.some.injEq] at hv1'
        have hle := (selectBICList_fst_le env xl (pyRange minN (maxN + 1)) ⊤ none).2
          n' hn' vp mp he'
        rw [hfst] at hle
        have : v ≤ vp := WithTop.coe_le_coe.mp hle
        rw [← hv1, ← hv1']
        exact this
  · rintro ⟨n0, hn0, hfit0⟩
    obtain ⟨logL0, hsc0⟩ := Option.isSome_iff_exists.mp (hs n0 hn0 hfit0)
    have he0 := evalBIC_formula hfit0 hsc0 hXeq
    unfold selectBIC
    rcases selectBICList_origin env xl (pyRange minN (maxN + 1)) ⊤ none with
      ⟨hfst, _⟩ | ⟨n, hn, v, m0, hv, hfst, hsnd⟩
    · have hle := (selectBICList_fst_le env xl (pyRange minN (maxN + 1)) ⊤ none).2
        n0 hn0 _ _ he0
      rw [hfst] at hle
      exact absurd hle (WithTop.not_top_le_coe _)
    · exact ⟨m0, hsnd⟩

/-- Witness for C1: in the environment `envW`, a two-state model fits and
scores `5`, the matrix has one row of one feature, and the abstracted log is
`1`, so the computed BIC is `-2*5 + ((2-1) + 2*(2-1) + 2*2*1) * 1 = -3`. -/
theorem claim_C1_witness : (evalBIC envW xlW 2).map Prod.fst = some (-3 : ℚ) := by
  have h := (claim_C1_bic_select envW xlW 2 3 (by decide) (by decide)).1 2 5
    (by decide) rfl
  rw [h]
  simp only [Option.map_some', Option.some.injEq]
  norm_num [envW, xlW]

end ASL

namespace ASL

/-! Lemmas about `SelectorDIC.select`. -/

theorem antiScores_all_target {env : Env} {m : HMM} {tw : String}
    {hwords : List (String × XLen)} (h : ∀ p ∈ hwords, p.1 = tw) :
    antiScores env m tw hwords = some (0, 0) := by
  induction hwords with
  | nil => rfl
  | cons q rest ih =>
    obtain ⟨w, dxl⟩ := q
    have hw : w = tw := h (w, dxl) (List.mem_cons_self _ _)
    simp only [antiScores, if_pos hw]
    exact ih (fun q hq => h q (List.mem_cons_of_mem _ hq))

theorem antiScores_fail {env : Env} {m : HMM} {tw : String}
    {hwords : List (String × XLen)} {p : String × XLen}
    (hp : p ∈ hwords) (hne : p.1 ≠ tw) (hf : env.score m p.2 = none) :
    antiScores env m tw hwords = none := by
  induction hwords with
  | nil => exact absurd hp (List.not_mem_nil p)
  | cons q rest ih =>
    obtain ⟨w, dxl⟩ := q
    rcases List.mem_cons.mp hp with heq | hmem
    · subst heq
      simp only [antiScores, if_neg hne]
      rw [hf]
    · by_cases hw : w = tw
      · simp only [antiScores, if_pos hw]
        exact ih hmem
      · simp only [antiScores, if_neg hw]
        rw [ih hmem]
        cases env.score m dxl <;> rfl

theorem evalDIC_none_of_fitFail {env : Env} {hwords : List (String × XLen)}
    {tw : String} {xl : XLen} {n : Nat} (h : env.fitOk n xl = false) :
    evalDIC env hwords tw xl n = none := by
  simp [evalDIC, base_model, h]

theorem evalDIC_none_of_antiFail {env : Env} {hwords : List (String × XLen)}
    {tw : String} {xl : XLen} {n : Nat} {p : String × XLen}
    (hp : p ∈ hwords) (hne : p.1 ≠ tw) (hf : env.score ⟨n, xl⟩ p.2 = none) :
    evalDIC env hwords tw xl n = none := by
  unfold evalDIC base_model
  cases hfit : env.fitOk n xl
  · simp
  · simp only [if_true]
    cases hsc : env.score ⟨n, xl⟩ xl with
    | none => rfl
    | some logL =>
      rw [antiScores_fail hp hne hf]

theorem evalDIC_some_elim {env : Env} {hwords : List (String × XLen)}
    {tw : String} {xl : XLen} {n : Nat} {v : ℚ} {m : HMM}
    (h : evalDIC env hwords tw xl n = some (v, m)) :
    env.fitOk n xl = true ∧ m = ⟨n, xl⟩ := by
  unfold evalDIC base_model at h
  cases hfit : env.fitOk n xl
  · simp [hfit] at h
  · simp only [hfit, if_true] at h
    cases hs : env.score ⟨n, xl⟩ xl
    · simp [hs] at h
    · simp only [hs] at h
      cases ha : antiScores env ⟨n, xl⟩ tw hwords
      · simp [ha] at h
      · rename_i pr
        obtain ⟨s, c⟩ := pr
        simp only [ha] at h
        by_cases hc : c = 0
        · rw [if_pos hc] at h
          exact Option.noConfusion h
        · rw [if_neg hc] at h
          simp only [Option.some.injEq, Prod.mk.injEq] at h
          exact ⟨rfl, h.2.symm⟩

theorem selectDICList_all_none {env : Env} {hwords : List (String × XLen)}
    {tw : String} {xl : XLen} :
    ∀ (l : List Nat) (acc : WithBot ℚ) (b : Option HMM),
      (∀ n ∈ l, evalDIC env hwords tw xl n = none) →
      selectDICList env hwords tw xl l acc b = (acc, b) := by
  intro l
  induction l with
  | nil =>
    intro acc b _
    rfl
  | cons n rest ih =>
    intro acc b h
    simp only [selectDICList, h n (List.mem_cons_self _ _)]
    exact ih acc b (fun n' hn' => h n' (List.mem_cons_of_mem _ hn'))

theorem selectDICList_origin (env : Env) (hwords : List (String × XLen))
    (tw : String) (xl : XLen) :
    ∀ (l : List Nat) (acc : WithBot ℚ) (b : Option HMM),
      ((selectDICList env hwords tw xl l acc b).1 = acc ∧
       (selectDICList env hwords tw xl l acc b).2 = b) ∨
      ∃ n ∈ l, ∃ v : ℚ, ∃ m : HMM, evalDIC env hwords tw xl n = some (v, m) ∧
        (selectDICList env hwords tw xl l acc b).1 = (v : WithBot ℚ) ∧
        (selectDICList env hwords tw xl l acc b).2 = some m := by
  intro l
  induction l with
  | nil =>
    intro acc b
    left
    simp [selectDICList]
  | cons n rest ih =>
    intro acc b
    cases he : evalDIC env hwords tw xl n with
    | none =>
      simp only [selectDICList, he]
      rcases ih acc b with h | ⟨n', hn', v, m, hv, h1, h2⟩
      · exact Or.inl h
      · exact Or.inr ⟨n', List.mem_cons_of_mem _ hn', v, m, hv, h1, h2⟩
    | some p =>
      obtain ⟨v0, m0⟩ := p
      simp only [selectDICList, he]
      by_cases hlt : acc < (v0 : WithBot ℚ)
      · rw [if_pos hlt]
        rcases ih (v0 : WithBot ℚ) (some m0) with ⟨h1, h2⟩ | ⟨n', hn', v, m, hv, h1, h2⟩
        · exact Or.inr ⟨n, List.mem_cons_self n rest, v0, m0, he, h1, h2⟩
        · exact Or.inr ⟨n', List.mem_cons_of_mem _ hn', v, m, hv, h1, h2⟩
      · rw [if_neg hlt]
        rcases ih acc b with h | ⟨n', hn', v, m, hv, h1, h2⟩
        · exact Or.inl h
        · exact Or.inr ⟨n', List.mem_cons_of_mem _ hn', v, m, hv, h1, h2⟩

theorem selectDICList_skip {env : Env} {hwords : List (String × XLen)}
    {tw : String} {xl : XLen} {n0 : Nat}
    (hnone : evalDIC env hwords tw xl n0 = none) :
    ∀ (l1 l2 : List Nat) (acc : WithBot ℚ) (b : Option HMM),
      selectDICList env hwords tw xl (l1 ++ n0 :: l2) acc b =
      selectDICList env hwords tw xl (l1 ++ l2) acc b := by
  intro l1
  induction l1 with
  | nil =>
    intro l2 acc b
    simp only [List.nil_append, selectDICList, hnone]
  | cons a l1' ih =>
    intro l2 acc b
    cases he : evalDIC env hwords tw xl a with
    | none =>
      simp only [List.cons_append, selectDICList, he]
      exact ih l2 acc b
    | some p =>
      obtain ⟨v, m⟩ := p
      simp only [List.cons_append, selectDICList, he]
      by_cases hlt : acc < (v : WithBot ℚ)
      · rw [if_pos hlt, if_pos hlt]
        exact ih l2 _ _
      · rw [if_neg hlt, if_neg hlt]
        exact ih l2 acc b

end ASL

namespace ASL

/-- C6: when the corpus contains no category other than the target, the
`word_count` denominator is zero; the resulting `ZeroDivisionError` is caught
by the candidate's bare `except` and does not propagate, every state count is
treated as non-viable, and `SelectorDIC.select` returns `None`. -/
theorem claim_C6_dic_no_other_categories (env : Env)
    (hwords : List (String × XLen)) (tw : String) (xl : XLen)
    (minN maxN : Nat) (h : ∀ p ∈ hwords, p.1 = tw) :
    (∀ n : Nat, evalDIC env hwords tw xl n = none) ∧
    selectDIC env hwords tw xl minN maxN = none := by
  have hev : ∀ n : Nat, evalDIC env hwords tw xl n = none := by
    intro n
    unfold evalDIC base_model
    cases hfit : env.fitOk n xl
    · simp
    · simp only [if_true]
      cases hsc : env.score ⟨n, xl⟩ xl with
      | none => rfl
      | some logL =>
        rw [antiScores_all_target h]
        simp
  refine ⟨hev, ?_⟩
  unfold selectDIC
  rw [selectDICList_all_none (pyRange minN (maxN + 1)) ⊥ none
    (fun n _ => hev n)]

/-- Witness for C6: a corpus whose only category is the target itself. -/
theorem claim_C6_witness :
    evalDIC envT [("A", xlB)] "A" xlW 2 = none ∧
    selectDIC envT [("A", xlB)] "A" xlW 2 3 = none := by
  have h := claim_C6_dic_no_other_categories envT [("A", xlB)] "A" xlW 2 3
    (by decide)
  exact ⟨h.1 2, h.2⟩

/-- C9: a failure fitting the target model for a state count `n`, or a
failure scoring that model against any single other category, makes the whole
candidate `n` non-viable, and removing `n` from the loop's candidate list
leaves the selection unchanged — the search simply continues. -/
theorem claim_C9_dic_drops_whole_candidate (env : Env)
    (hwords : List (String × XLen)) (tw : String) (xl : XLen) (n0 : Nat)
    (h : env.fitOk n0 xl = false ∨
      ∃ p ∈ hwords, p.1 ≠ tw ∧ env.score ⟨n0, xl⟩ p.2 = none) :
    evalDIC env hwords tw xl n0 = none ∧
    ∀ (l1 l2 : List Nat) (acc : WithBot ℚ) (b : Option HMM),
      selectDICList env hwords tw xl (l1 ++ n0 :: l2) acc b =
      selectDICList env hwords tw xl (l1 ++ l2) acc b := by
  have hnone : evalDIC env hwords tw xl n0 = none := by
    rcases h with hf | ⟨p, hp, hne, hsc⟩
    · exact evalDIC_none_of_fitFail hf
    · exact evalDIC_none_of_antiFail hp hne hsc
  exact ⟨hnone, fun l1 l2 acc b => selectDICList_skip hnone l1 l2 acc b⟩

/-- Witness for C9: in `env9` every fit succeeds but scoring the data of the
other category `"B"` raises, so candidate `2` is dropped whole and the loop
over `[3, 2, 4]` behaves exactly like the loop over `[3, 4]`. -/
theorem claim_C9_witness :
    evalDIC env9 [("B", xlB)] "A" xlW 2 = none ∧
    selectDICList env9 [("B", xlB)] "A" xlW ([3] ++ 2 :: [4]) ⊥ none =
      selectDICList env9 [("B", xlB)] "A" xlW ([3] ++ [4]) ⊥ none := by
  have h := claim_C9_dic_drops_whole_candidate env9 [("B", xlB)] "A" xlW 2
    (Or.inr ⟨("B", xlB), by decide, by decide, by decide⟩)
  exact ⟨h.1, h.2 [3] [4] ⊥ none⟩

end ASL

namespace ASL

/-! Lemmas about `SelectorCV.select`. -/

theorem cvFolds_of_none (env : Env) (seqs : List (List Row)) :
    ∀ folds : List (List Nat × List Nat),
      cvFolds env seqs folds none = (none, []) := by
  intro folds
  induction folds with
  | nil => rfl
  | cons f rest ih =>
    obtain ⟨tr, te⟩ := f
    simp only [cvFolds]
    exact ih

theorem npMean_eq_none_iff (l : List ℚ) : npMean l = none ↔ l = [] := by
  by_cases h : l = [] <;> simp [npMean, h]

theorem cvFolds_some_spec (env : Env) (seqs : List (List Row)) :
    ∀ (folds : List (List Nat × List Nat)) (hm : HMM),
      ∃ mF : HMM, ∃ ls : List ℚ,
        cvFolds env seqs folds (some hm) = (some mF, ls) ∧
        mF.n_components = hm.n_components ∧
        mF.trainedOn =
          (lastFitTrain env hm.n_components seqs folds).getD hm.trainedOn ∧
        (ls ≠ [] → (lastFitTrain env hm.n_components seqs folds).isSome) := by
  intro folds
  induction folds with
  | nil =>
    intro hm
    exact ⟨hm, [], rfl, rfl, by simp [lastFitTrain], by simp⟩
  | cons f rest ih =>
    intro hm
    obtain ⟨tr, te⟩ := f
    by_cases hfit : env.fitOk hm.n_components (combine tr seqs) = true
    · obtain ⟨mF, ls, hcv, hnc, htr, hsome⟩ :=
        ih ⟨hm.n_components, combine tr seqs⟩
      have hlast : lastFitTrain env hm.n_components seqs ((tr, te) :: rest) =
          match lastFitTrain env hm.n_components seqs rest with
          | some x => some x
          | none => some (combine tr seqs) := by
        simp only [lastFitTrain, hfit, if_true]
      cases hsc : env.score ⟨hm.n_components, combine tr seqs⟩
          (combine te seqs) with
      | some l =>
        refine ⟨mF, l :: ls, ?_, hnc, ?_, ?_⟩
        · simp only [cvFolds, hfit, if_true, hsc, hcv]
        · rw [htr, hlast]
          cases hrest : lastFitTrain env hm.n_components seqs rest <;> simp
        · intro _
          rw [hlast]
          cases hrest : lastFitTrain env hm.n_components seqs rest <;> simp
      | none =>
        refine ⟨mF, ls, ?_, hnc, ?_, ?_⟩
        · simp only [cvFolds, hfit, if_true, hsc, hcv]
        · rw [htr, hlast]
          cases hrest : lastFitTrain env hm.n_components seqs rest <;> simp
        · intro hne
          rw [hlast]
          cases hrest : lastFitTrain env hm.n_components seqs rest <;> simp
    · have hfit' : env.fitOk hm.n_components (combine tr seqs) = false :=
        Bool.eq_false_iff.mpr hfit
      obtain ⟨mF, ls, hcv, hnc, htr, hsome⟩ := ih hm
      have hlast : lastFitTrain env hm.n_components seqs ((tr, te) :: rest) =
          lastFitTrain env hm.n_components seqs rest := by
        simp only [lastFitTrain, hfit']
        cases lastFitTrain env hm.n_components seqs rest <;> simp
      refine ⟨mF, ls, ?_, hnc, ?_, ?_⟩
      · simp [cvFolds, hfit', hcv]
      · rw [htr, hlast]
      · intro hne
        rw [hlast]
        exact hsome hne

theorem selectCVList_origin (env : Env) (seqs : List (List Row))
    (xlfull : XLen) (folds : List (List Nat × List Nat)) :
    ∀ (l : List Nat) (acc : WithBot ℚ) (b : Option HMM),
      ((selectCVList env seqs xlfull folds l acc b).1 = acc ∧
       (selectCVList env seqs xlfull folds l acc b).2 = b) ∨
      ∃ n ∈ l, ∃ v : ℚ,
        npMean (cvFolds env seqs folds (base_model env xlfull n)).2 = some v ∧
        (selectCVList env seqs xlfull folds l acc b).1 = (v : WithBot ℚ) ∧
        (selectCVList env seqs xlfull folds l acc b).2 =
          (cvFolds env seqs folds (base_model env xlfull n)).1 := by
  intro l
  induction l with
  | nil =>
    intro acc b
    left
    simp [selectCVList]
  | cons n rest ih =>
    intro acc b
    cases hcv : cvFolds env seqs folds (base_model env xlfull n) with
    | mk mF ls =>
      cases hnp : npMean ls with
      | none =>
        simp only [selectCVList, hcv, hnp]
        rcases ih acc b with h | ⟨n', hn', v, hv, h1, h2⟩
        · exact Or.inl h
        · exact Or.inr ⟨n', List.mem_cons_of_mem _ hn', v, hv, h1, h2⟩
      | some v0 =>
        simp only [selectCVList, hcv, hnp]
        by_cases hlt : acc < (v0 : WithBot ℚ)
        · rw [if_pos hlt]
          rcases ih (v0 : WithBot ℚ) mF with ⟨h1, h2⟩ | ⟨n', hn', v, hv, h1, h2⟩
          · refine Or.inr ⟨n, List.mem_cons_self n rest, v0, ?_, h1, ?_⟩
            · rw [hcv]
              exact hnp
            · rw [h2, hcv]
          · exact Or.inr ⟨n', List.mem_cons_of_mem _ hn', v, hv, h1, h2⟩
        · rw [if_neg hlt]
          rcases ih acc b with h | ⟨n', hn', v, hv, h1, h2⟩
          · exact Or.inl h
          · exact Or.inr ⟨n', List.mem_cons_of_mem _ hn', v, hv, h1, h2⟩

theorem selectCVList_skip {env : Env} {seqs : List (List Row)} {xlfull : XLen}
    {folds : List (List Nat × List Nat)} {n0 : Nat}
    (hz : (cvFolds env seqs folds (base_model env xlfull n0)).2 = []) :
    ∀ (l1 l2 : List Nat) (acc : WithBot ℚ) (b : Option HMM),
      selectCVList env seqs xlfull folds (l1 ++ n0 :: l2) acc b =
      selectCVList env seqs xlfull folds (l1 ++ l2) acc b := by
  intro l1
  induction l1 with
  | nil =>
    intro l2 acc b
    cases hcv : cvFolds env seqs folds (base_model env xlfull n0) with
    | mk mF ls =>
      have hls : ls = [] := by
        rw [hcv] at hz
        exact hz
      subst hls
      simp only [List.nil_append, selectCVList, hcv, (npMean_eq_none_iff []).mpr rfl]
  | cons a l1' ih =>
    intro l2 acc b
    cases hcv : cvFolds env seqs folds (base_model env xlfull a) with
    | mk mF ls =>
      cases hnp : npMean ls with
      | none =>
        simp only [List.cons_append, selectCVList, hcv, hnp]
        exact ih l2 acc b
      | some v =>
        simp only [List.cons_append, selectCVList, hcv, hnp]
        by_cases hlt : acc < (v : WithBot ℚ)
        · rw [if_pos hlt, if_pos hlt]
          exact ih l2 _ _
        · rw [if_neg hlt, if_neg hlt]
          exact ih l2 acc b

end ASL

namespace ASL

theorem selectBICList_skip {env : Env} {xl : XLen} {n0 : Nat}
    (hnone : evalBIC env xl n0 = none) :
    ∀ (l1 l2 : List Nat) (acc : WithTop ℚ) (b : Option HMM),
      selectBICList env xl (l1 ++ n0 :: l2) acc b =
      selectBICList env xl (l1 ++ l2) acc b := by
  intro l1
  induction l1 with
  | nil =>
    intro l2 acc b
    simp only [List.nil_append, selectBICList, hnone]
  | cons a l1' ih =>
    intro l2 acc b
    cases he : evalBIC env xl a with
    | none =>
      simp only [List.cons_append, selectBICList, he]
      exact ih l2 acc b
    | some p =>
      obtain ⟨v, m⟩ := p
      simp only [List.cons_append, selectBICList, he]
      by_cases hlt : (v : WithTop ℚ) < acc
      · rw [if_pos hlt, if_pos hlt]
        exact ih l2 _ _
      · rw [if_neg hlt, if_neg hlt]
        exact ih l2 acc b

/-- C7: a state count whose folds produce no successful log-likelihood score
(`np.mean` of an empty list is `nan`, and `nan > max_score` is `False`) is
excluded from the search — removing it from the loop's candidate list leaves
the selection unchanged — and any model `SelectorCV.select`'s loop returns
comes from a candidate with at least one successful fold. -/
theorem claim_C7_cv_zero_fold_candidate_excluded (env : Env)
    (seqs : List (List Row)) (xlfull : XLen)
    (folds : List (List Nat × List Nat)) (n0 : Nat)
    (hz : (cvFolds env seqs folds (base_model env xlfull n0)).2 = []) :
    (∀ (l1 l2 : List Nat) (acc : WithBot ℚ) (b : Option HMM),
      selectCVList env seqs xlfull folds (l1 ++ n0 :: l2) acc b =
      selectCVList env seqs xlfull folds (l1 ++ l2) acc b) ∧
    (∀ (ns : List Nat) (m : HMM),
      (selectCVList env seqs xlfull folds ns ⊥ none).2 = some m →
      ∃ n ∈ ns, (cvFolds env seqs folds (base_model env xlfull n)).2 ≠ [] ∧
        some m = (cvFolds env seqs folds (base_model env xlfull n)).1) := by
  refine ⟨fun l1 l2 acc b => selectCVList_skip hz l1 l2 acc b, ?_⟩
  intro ns m hm
  rcases selectCVList_origin env seqs xlfull folds ns ⊥ none with
    ⟨_, h2⟩ | ⟨n, hn, v, hv, _, h2⟩
  · rw [hm] at h2
    exact Option.noConfusion h2
  · refine ⟨n, hn, ?_, ?_⟩
    · intro hnil
      have hno := (npMean_eq_none_iff
        ((cvFolds env seqs folds (base_model env xlfull n)).2)).mpr hnil
      rw [hv] at hno
      exact Option.noConfusion hno
    · rw [← hm]
      exact h2

/-- Witness for C7: with scoring always failing, candidate `5` collects no
fold score, and the loop over `[2, 5, 3]` equals the loop over `[2, 3]`. -/
theorem claim_C7_witness :
    selectCVList envN seqsC xlfullC (kfoldSplits 2 2) ([2] ++ 5 :: [3]) ⊥ none =
    selectCVList envN seqsC xlfullC (kfoldSplits 2 2) ([2] ++ [3]) ⊥ none := by
  exact (claim_C7_cv_zero_fold_candidate_excluded envN seqsC xlfullC
    (kfoldSplits 2 2) 5 (by decide)).1 [2] [3] ⊥ none

/-- C8: `base_model` returns `None` on a fitting failure, and for each of the
three searching strategies a candidate whose fit fails is simply excluded:
removing it from the loop's candidate list leaves the selection unchanged,
so the search continues over the remaining state counts. -/
theorem claim_C8_fit_failure_never_fatal (env : Env) (xl : XLen) (n0 : Nat)
    (h : env.fitOk n0 xl = false) :
    base_model env xl n0 = none ∧
    (∀ (l1 l2 : List Nat) (acc : WithTop ℚ) (b : Option HMM),
      selectBICList env xl (l1 ++ n0 :: l2) acc b =
      selectBICList env xl (l1 ++ l2) acc b) ∧
    (∀ (hwords : List (String × XLen)) (tw : String) (l1 l2 : List Nat)
        (acc : WithBot ℚ) (b : Option HMM),
      selectDICList env hwords tw xl (l1 ++ n0 :: l2) acc b =
      selectDICList env hwords tw xl (l1 ++ l2) acc b) ∧
    (∀ (seqs : List (List Row)) (folds : List (List Nat × List Nat))
        (l1 l2 : List Nat) (acc : WithBot ℚ) (b : Option HMM),
      selectCVList env seqs xl folds (l1 ++ n0 :: l2) acc b =
      selectCVList env seqs xl folds (l1 ++ l2) acc b) := by
  have hbm : base_model env xl n0 = none := by simp [base_model, h]
  refine ⟨hbm, ?_, ?_, ?_⟩
  · exact fun l1 l2 acc b => selectBICList_skip (evalBIC_none_of_fitFail h) l1 l2 acc b
  · exact fun hwords tw l1 l2 acc b =>
      selectDICList_skip (evalDIC_none_of_fitFail h) l1 l2 acc b
  · intro seqs folds l1 l2 acc b
    have hz : (cvFolds env seqs folds (base_model env xl n0)).2 = [] := by
      rw [hbm, cvFolds_of_none]
    exact selectCVList_skip hz l1 l2 acc b

/-- Witness for C8: in `env58` exactly five-state fits fail; for all three
strategies the loop over `[2, 5, 3]` equals the loop over `[2, 3]`. -/
theorem claim_C8_witness :
    base_model env58 xlW 5 = none ∧
    selectBICList env58 xlW ([2] ++ 5 :: [3]) ⊤ none =
      selectBICList env58 xlW ([2] ++ [3]) ⊤ none ∧
    selectDICList env58 [("B", xlB)] "A" xlW ([2] ++ 5 :: [3]) ⊥ none =
      selectDICList env58 [("B", xlB)] "A" xlW ([2] ++ [3]) ⊥ none ∧
    selectCVList env58 seqsC xlW (kfoldSplits 2 2) ([2] ++ 5 :: [3]) ⊥ none =
      selectCVList env58 seqsC xlW (kfoldSplits 2 2) ([2] ++ [3]) ⊥ none := by
  have h := claim_C8_fit_failure_never_fatal env58 xlW 5 (by decide)
  exact ⟨h.1, h.2.1 [2] [3] ⊤ none,
    h.2.2.1 [("B", xlB)] "A" [2] [3] ⊥ none,
    h.2.2.2 seqsC (kfoldSplits 2 2) [2] [3] ⊥ none⟩

/-- C3 (the claim is violated by the code): with fewer than two training
sequences, `SelectorCV.select` constructs `KFold(min(len(sequences), 3))`
with `n_splits <= 1` outside any `try`, and sklearn's constructor raises
`ValueError`, so `select` propagates an unhandled exception instead of
returning `None` or falling back. -/
theorem claim_C3_cv_crashes_below_two_sequences (env : Env)
    (seqs : List (List Row)) (xlfull : XLen) (minN maxN : Nat)
    (h : seqs.length < 2) :
    selectCV env seqs xlfull minN maxN =
      Except.error
        "k-fold cross-validation requires at least one train-test split" := by
  have hk : min seqs.length 3 ≤ 1 := by omega
  simp only [selectCV]
  rw [if_pos hk]

/-- Witness for C3: a category with a single training sequence makes
`SelectorCV.select` raise. -/
theorem claim_C3_witness :
    selectCV envT [[[0]]] xlW 2 3 =
      Except.error
        "k-fold cross-validation requires at least one train-test split" := by
  exact claim_C3_cv_crashes_below_two_sequences envT [[[0]]] xlW 2 3 (by decide)

end ASL

namespace ASL

theorem selectCV_ok_spec (env : Env) (seqs : List (List Row)) (xlfull : XLen)
    (minN maxN : Nat) (m : HMM)
    (h : selectCV env seqs xlfull minN maxN = Except.ok (some m)) :
    ∃ n ∈ pyRange minN (maxN + 1), env.fitOk n xlfull = true ∧
      m.n_components = n ∧
      (cvFolds env seqs (kfoldSplits (min seqs.length 3) seqs.length)
        (some ⟨n, xlfull⟩)).2 ≠ [] ∧
      m.trainedOn = (lastFitTrain env n seqs
        (kfoldSplits (min seqs.length 3) seqs.length)).getD xlfull ∧
      (lastFitTrain env n seqs
        (kfoldSplits (min seqs.length 3) seqs.length)).isSome = true := by
  simp only [selectCV] at h
  by_cases hk : min seqs.length 3 ≤ 1
  · rw [if_pos hk] at h
    exact Except.noConfusion h
  · rw [if_neg hk] at h
    injection h with h2
    rcases selectCVList_origin env seqs xlfull
        (kfoldSplits (min seqs.length 3) seqs.length)
        (pyRange minN (maxN + 1)) ⊥ none with ⟨_, hb⟩ | ⟨n, hn, v, hv, _, hsel⟩
    · rw [h2] at hb
      exact Option.noConfusion hb
    · cases hbm : base_model env xlfull n with
      | none =>
        rw [hbm, cvFolds_of_none] at hv
        rw [(npMean_eq_none_iff []).mpr rfl] at hv
        exact Option.noConfusion hv
      | some hm0 =>
        have hfit : env.fitOk n xlfull = true := by
          unfold base_model at hbm
          cases hf : env.fitOk n xlfull
          · rw [hf] at hbm
            simp at hbm
          · rfl
        have hm0eq : hm0 = ⟨n, xlfull⟩ := by
          unfold base_model at hbm
          rw [hfit, if_pos rfl] at hbm
          exact (Option.some.inj hbm).symm
        subst hm0eq
        obtain ⟨mF, ls, hcv, hnc, htr, hsome⟩ := cvFolds_some_spec env seqs
          (kfoldSplits (min seqs.length 3) seqs.length) ⟨n, xlfull⟩
        rw [hbm, hcv] at hsel
        rw [hbm, hcv] at hv
        have hmeq : m = mF := by
          rw [h2] at hsel
          exact Option.some.inj hsel
        have hlsne : ls ≠ [] := by
          intro hnil
          rw [(npMean_eq_none_iff ls).mpr hnil] at hv
          exact Option.noConfusion hv
        refine ⟨n, hn, hfit, ?_, ?_, ?_, ?_⟩
        · rw [hmeq]
          exact hnc
        · rw [hcv]
          exact hlsne
        · rw [hmeq]
          exact htr
        · exact hsome hlsne

/-- C5: every strategy returns either `None` or a model whose state count is
in `[min_n_components, max_n_components]`; `SelectorConstant` returns `None`
or a model with exactly `n_constant` states. -/
theorem claim_C5_state_count_in_range (env : Env) (xl xlfull : XLen)
    (hwords : List (String × XLen)) (tw : String) (seqs : List (List Row))
    (nc minN maxN : Nat) :
    (∀ m : HMM, selectConstant env xl nc = some m → m.n_components = nc) ∧
    (∀ m : HMM, selectBIC env xl minN maxN = some m →
      minN ≤ m.n_components ∧ m.n_components ≤ maxN) ∧
    (∀ m : HMM, selectDIC env hwords tw xl minN maxN = some m →
      minN ≤ m.n_components ∧ m.n_components ≤ maxN) ∧
    (∀ m : HMM, selectCV env seqs xlfull minN maxN = Except.ok (some m) →
      minN ≤ m.n_components ∧ m.n_components ≤ maxN) := by
  refine ⟨?_, ?_, ?_, ?_⟩
  · intro m hm
    unfold selectConstant base_model at hm
    cases hf : env.fitOk nc xl
    · rw [hf] at hm
      simp at hm
    · rw [hf, if_pos rfl] at hm
      rw [← Option.some.inj hm]
  · intro m hm
    unfold selectBIC at hm
    rcases selectBICList_origin env xl (pyRange minN (maxN + 1)) ⊤ none with
      ⟨_, hb⟩ | ⟨n, hn, v, m0, hv, _, hsel⟩
    · rw [hm] at hb
      exact Option.noConfusion hb
    · obtain ⟨_, hmeq⟩ := evalBIC_some_elim hv
      have heq : m0 = m := by
        rw [hm] at hsel
        exact (Option.some.inj hsel).symm
      rw [← heq, hmeq]
      show minN ≤ n ∧ n ≤ maxN
      have hb := mem_pyRange.mp hn
      omega
  · intro m hm
    unfold selectDIC at hm
    rcases selectDICList_origin env hwords tw xl (pyRange minN (maxN + 1)) ⊥
        none with ⟨_, hb⟩ | ⟨n, hn, v, m0, hv, _, hsel⟩
    · rw [hm] at hb
      exact Option.noConfusion hb
    · obtain ⟨_, hmeq⟩ := evalDIC_some_elim hv
      have heq : m0 = m := by
        rw [hm] at hsel
        exact (Option.some.inj hsel).symm
      rw [← heq, hmeq]
      show minN ≤ n ∧ n ≤ maxN
      have hb := mem_pyRange.mp hn
      omega
  · intro m hm
    obtain ⟨n, hn, _, hnc, _, _, _⟩ := selectCV_ok_spec env seqs xlfull minN
      maxN m hm
    have := mem_pyRange.mp hn
    rw [hnc]
    exact ⟨this.1, by omega⟩

/-- Witness for C5: concrete selections whose returned state counts are
checked against the bounds. -/
theorem claim_C5_witness :
    (⟨3, xlW⟩ : HMM).n_components = 3 ∧
    (2 ≤ (⟨2, xlW⟩ : HMM).n_components ∧ (⟨2, xlW⟩ : HMM).n_components ≤ 3) := by
  have h := claim_C5_state_count_in_range envT xlW xlW [("B", xlB)] "A" seqsC
    3 2 3
  have h2 : evalBIC envT xlW 2 = some (-2, ⟨2, xlW⟩) := by
    simp only [evalBIC, base_model, envT, xlW]
    norm_num
  have h3 : evalBIC envT xlW 3 = some (-2, ⟨3, xlW⟩) := by
    simp only [evalBIC, base_model, envT, xlW]
    norm_num
  have hb : selectBIC envT xlW 2 3 = some ⟨2, xlW⟩ := by
    have hr : pyRange 2 4 = [2, 3] := rfl
    simp only [selectBIC, hr, selectBICList, h2, h3]
    rw [if_pos (by decide), if_neg (by decide)]
  exact ⟨h.1 ⟨3, xlW⟩ rfl, h.2.1 ⟨2, xlW⟩ hb⟩

end ASL

namespace ASL

/-- Concrete evaluation of `SelectorCV.select` in the environment `envC`:
of the two folds, only the first (train `[1]`, test `[0]`) yields a score,
while the second fold's refit succeeds and its scoring fails, leaving the
single model object fitted on `combine [0] seqsC`. -/
theorem selectCV_envC_eval :
    selectCV envC seqsC xlfullC 2 2 =
      Except.ok (some ⟨2, combine [0] seqsC⟩) := by
  have hcv : cvFolds envC seqsC (kfoldSplits 2 2) (base_model envC xlfullC 2) =
      (some ⟨2, combine [0] seqsC⟩, [0]) := by decide
  have hk : kfoldSplits (min seqsC.length 3) seqsC.length = kfoldSplits 2 2 :=
    rfl
  have hm : npMean [0] = some 0 := by
    simp [npMean]
  have hr : pyRange 2 (2 + 1) = [2] := rfl
  simp only [selectCV]
  rw [if_neg (by decide)]
  simp only [hk, hr, selectCVList, hcv, hm]
  rw [if_pos (by decide)]

/-- C10 counterexample: in `envC` with two one-frame sequences, the fold list
is `[([1], [0]), ([0], [1])]`; the only successfully processed fold (the only
one whose score is collected) is the first, whose training subset is
`combine [1] seqsC`, yet the returned model's parameters come from the
in-place refit of the second fold, on `combine [0] seqsC` — the second fold's
fit succeeded and only its scoring failed.  So the returned model is not
fitted on the training subset of the last successfully processed fold. -/
theorem claim_C10_counterexample :
    kfoldSplits 2 2 = [([1], [0]), ([0], [1])] ∧
    envC.score ⟨2, combine [1] seqsC⟩ (combine [0] seqsC) = some 0 ∧
    envC.score ⟨2, combine [0] seqsC⟩ (combine [1] seqsC) = none ∧
    cvFolds envC seqsC (kfoldSplits 2 2) (base_model envC xlfullC 2) =
      (some ⟨2, combine [0] seqsC⟩, [0]) ∧
    selectCV envC seqsC xlfullC 2 2 =
      Except.ok (some ⟨2, combine [0] seqsC⟩) ∧
    combine [0] seqsC ≠ combine [1] seqsC := by
  exact ⟨by decide, by decide, by decide, by decide, selectCV_envC_eval,
    by decide⟩

/-- C10 amended: whenever `SelectorCV.select` returns a model, that model's
fitted parameters come from the in-place refit on the training subset of the
last fold of the winning state count whose refit succeeded (even when that
fold's subsequent scoring failed), not from the initial fit on the category's
full combined data: such a fold exists, and the returned model's data is
exactly its training subset. -/
theorem claim_C10_cv_model_from_last_successful_refit (env : Env)
    (seqs : List (List Row)) (xlfull : XLen) (minN maxN : Nat) (m : HMM)
    (h : selectCV env seqs xlfull minN maxN = Except.ok (some m)) :
    env.fitOk m.n_components xlfull = true ∧
    (lastFitTrain env m.n_components seqs
      (kfoldSplits (min seqs.length 3) seqs.length)).isSome = true ∧
    m.trainedOn = (lastFitTrain env m.n_components seqs
      (kfoldSplits (min seqs.length 3) seqs.length)).getD xlfull := by
  obtain ⟨n, hn, hfit, hnc, hne, htr, hsome⟩ :=
    selectCV_ok_spec env seqs xlfull minN maxN m h
  subst hnc
  exact ⟨hfit, hsome, htr⟩

/-- Witness for the amended C10, at the counterexample's own input: the last
fold whose refit succeeded is the second one, trained on `combine [0] seqsC`,
and that is exactly the returned model's data. -/
theorem claim_C10_witness :
    envC.fitOk 2 xlfullC = true ∧
    (lastFitTrain envC 2 seqsC
      (kfoldSplits (min seqsC.length 3) seqsC.length)).isSome = true ∧
    combine [0] seqsC = (lastFitTrain envC 2 seqsC
      (kfoldSplits (min seqsC.length 3) seqsC.length)).getD xlfullC := by
  exact claim_C10_cv_model_from_last_successful_refit envC seqsC xlfullC 2 2
    ⟨2, combine [0] seqsC⟩ selectCV_envC_eval

end ASL

namespace ASL

/-! Lemmas about `recognize`. -/

theorem recognizeItemAux_fst (env : Env) (x : XLen) :
    ∀ (l : List (String × HMM)) (bestS : WithBot ℚ) (g : Option String),
      (recognizeItemAux env x l bestS g).1 =
        l.map (fun p => (p.1, recorded env p.2 x)) := by
  intro l
  induction l with
  | nil =>
    intro bestS g
    rfl
  | cons q rest ih =>
    intro bestS g
    obtain ⟨w, m⟩ := q
    cases hs : env.score m x with
    | some s =>
      have hrec : recorded env m x = (s : WithBot ℚ) := by simp [recorded, hs]
      by_cases hlt : bestS < (s : WithBot ℚ)
      · simp only [recognizeItemAux, hs, if_pos hlt, List.map_cons, hrec]
        rw [ih]
      · simp only [recognizeItemAux, hs, if_neg hlt, List.map_cons, hrec]
        rw [ih]
    | none =>
      have hrec : recorded env m x = (⊥ : WithBot ℚ) := by simp [recorded, hs]
      simp only [recognizeItemAux, hs, List.map_cons, hrec]
      rw [ih]

theorem recognizeItemAux_guess (env : Env) (x : XLen) :
    ∀ (l : List (String × HMM)) (bestS : WithBot ℚ) (g : Option String),
      ((∀ p ∈ l, recorded env p.2 x ≤ bestS) →
        (recognizeItemAux env x l bestS g).2 = g) ∧
      ((∃ p ∈ l, bestS < recorded env p.2 x) →
        ∃ l1 p l2, l = l1 ++ p :: l2 ∧
          (recognizeItemAux env x l bestS g).2 = some p.1 ∧
          bestS < recorded env p.2 x ∧
          (∀ q ∈ l, recorded env q.2 x ≤ recorded env p.2 x) ∧
          (∀ q ∈ l1, recorded env q.2 x < recorded env p.2 x)) := by
  intro l
  induction l with
  | nil =>
    intro bestS g
    refine ⟨fun _ => rfl, ?_⟩
    rintro ⟨p, hp, _⟩
    exact absurd hp (List.not_mem_nil p)
  | cons q rest ih =>
    intro bestS g
    obtain ⟨w, m⟩ := q
    cases hs : env.score m x with
    | none =>
      have hrec : recorded env m x = ⊥ := by simp [recorded, hs]
      constructor
      · intro hall
        simp only [recognizeItemAux, hs]
        exact (ih bestS g).1 (fun p hp => hall p (List.mem_cons_of_mem _ hp))
      · rintro ⟨p, hp, hlt⟩
        rcases List.mem_cons.mp hp with heq | hmem
        · subst heq
          rw [hrec] at hlt
          exact absurd hlt not_lt_bot
        · obtain ⟨l1, p', l2, hsplit, hguess, hplt, hmax, hstrict⟩ :=
            (ih bestS g).2 ⟨p, hmem, hlt⟩
          refine ⟨(w, m) :: l1, p', l2, by rw [hsplit, List.cons_append], ?_, hplt, ?_, ?_⟩
          · simp only [recognizeItemAux, hs]
            exact hguess
          · intro q hq
            rcases List.mem_cons.mp hq with heq2 | hmem2
            · subst heq2
              rw [hrec]
              exact bot_le
            · exact hmax q hmem2
          · intro q hq
            rcases List.mem_cons.mp hq with heq2 | hmem2
            · subst heq2
              rw [hrec]
              exact lt_of_le_of_lt bot_le hplt
            · exact hstrict q hmem2
    | some s =>
      have hrec : recorded env m x = (s : WithBot ℚ) := by simp [recorded, hs]
      by_cases hlt : bestS < (s : WithBot ℚ)
      · constructor
        · intro hall
          exfalso
          have hle := hall (w, m) (List.mem_cons_self _ _)
          rw [hrec] at hle
          exact absurd hlt (not_lt.mpr hle)
        · intro _
          by_cases hex : ∃ p ∈ rest, (s : WithBot ℚ) < recorded env p.2 x
          · obtain ⟨l1, p', l2, hsplit, hguess, hplt, hmax, hstrict⟩ :=
              (ih (s : WithBot ℚ) (some w)).2 hex
            refine ⟨(w, m) :: l1, p', l2, by rw [hsplit, List.cons_append], ?_, lt_trans hlt hplt,
              ?_, ?_⟩
            · simp only [recognizeItemAux, hs, if_pos hlt]
              exact hguess
            · intro q hq
              rcases List.mem_cons.mp hq with heq2 | hmem2
              · subst heq2
                rw [hrec]
                exact le_of_lt hplt
              · exact hmax q hmem2
            · intro q hq
              rcases List.mem_cons.mp hq with heq2 | hmem2
              · subst heq2
                rw [hrec]
                exact hplt
              · exact hstrict q hmem2
          · push_neg at hex
            refine ⟨[], (w, m), rest, rfl, ?_, ?_, ?_, ?_⟩
            · simp only [recognizeItemAux, hs, if_pos hlt]
              exact (ih (s : WithBot ℚ) (some w)).1 hex
            · rw [hrec]
              exact hlt
            · intro q hq
              rcases List.mem_cons.mp hq with heq2 | hmem2
              · subst heq2
                exact le_refl _
              · rw [hrec]
                exact hex q hmem2
            · intro q hq
              exact absurd hq (List.not_mem_nil q)
      · have hsle : (s : WithBot ℚ) ≤ bestS := not_lt.mp hlt
        constructor
        · intro hall
          simp only [recognizeItemAux, hs, if_neg hlt]
          exact (ih bestS g).1 (fun p hp => hall p (List.mem_cons_of_mem _ hp))
        · rintro ⟨p, hp, hplt0⟩
          rcases List.mem_cons.mp hp with heq | hmem
          · subst heq
            rw [hrec] at hplt0
            exact absurd hplt0 hlt
          · obtain ⟨l1, p', l2, hsplit, hguess, hplt, hmax, hstrict⟩ :=
              (ih bestS g).2 ⟨p, hmem, hplt0⟩
            refine ⟨(w, m) :: l1, p', l2, by rw [hsplit, List.cons_append], ?_, hplt, ?_, ?_⟩
            · simp only [recognizeItemAux, hs, if_neg hlt]
              exact hguess
            · intro q hq
              rcases List.mem_cons.mp hq with heq2 | hmem2
              · subst heq2
                rw [hrec]
                exact le_trans hsle (le_of_lt hplt)
              · exact hmax q hmem2
            · intro q hq
              rcases List.mem_cons.mp hq with heq2 | hmem2
              · subst heq2
                rw [hrec]
                exact lt_of_le_of_lt hsle hplt
              · exact hstrict q hmem2

end ASL

namespace ASL

/-- C2 counterexample: with a single category `"A"` whose scoring call fails,
the recorded score table is `[("A", -inf)]`, so `"A"` holds the maximal
recorded score, yet the recorded guess is `None` and not `"A"`: when all
recorded scores are negative infinity the guess is not the first category in
iteration order, refuting the claim. -/
theorem claim_C2_counterexample :
    (recognize envN modelsA [xlW]).1 = [[("A", (⊥ : WithBot ℚ))]] ∧
    (recognize envN modelsA [xlW]).2 = [none] ∧
    (recognize envN modelsA [xlW]).2 ≠ [some "A"] := by
  exact ⟨rfl, rfl, by decide⟩

/-- C2 amended: the guess for each test item is the first category in the
mapping's iteration order whose recorded score is maximal, provided at least
one category's scoring call succeeded (successful scores are the recorded
scores exceeding negative infinity); when every category's scoring call
fails — all recorded scores negative infinity — the guess is `None`, not the
first category. -/
theorem claim_C2_recognize_guess_amended (env : Env)
    (models : List (String × HMM)) (items : List XLen) :
    (recognize env models items).2 =
      items.map (fun x => (recognizeItem env models x).2) ∧
    (∀ x : XLen, ((recognizeItem env models x).2 = none ↔
      ∀ p ∈ models, env.score p.2 x = none)) ∧
    (∀ (x : XLen) (w : String), (recognizeItem env models x).2 = some w →
      ∃ l1 p l2, models = l1 ++ p :: l2 ∧ w = p.1 ∧
        (⊥ : WithBot ℚ) < recorded env p.2 x ∧
        (∀ q ∈ models, recorded env q.2 x ≤ recorded env p.2 x) ∧
        (∀ q ∈ l1, recorded env q.2 x < recorded env p.2 x)) := by
  refine ⟨rfl, ?_, ?_⟩
  · intro x
    constructor
    · intro hnone
      by_contra hcon
      push_neg at hcon
      obtain ⟨p, hp, hsc⟩ := hcon
      cases hs : env.score p.2 x with
      | none => exact absurd hs hsc
      | some s =>
        have hbot : (⊥ : WithBot ℚ) < recorded env p.2 x := by
          simp [recorded, hs]
        obtain ⟨l1, p', l2, _, hguess, _, _, _⟩ :=
          (recognizeItemAux_guess env x models ⊥ none).2 ⟨p, hp, hbot⟩
        have hru : (recognizeItem env models x).2 =
            (recognizeItemAux env x models ⊥ none).2 := rfl
        rw [hru, hguess] at hnone
        exact Option.noConfusion hnone
    · intro hall
      have hle : ∀ p ∈ models, recorded env p.2 x ≤ (⊥ : WithBot ℚ) := by
        intro p hp
        simp [recorded, hall p hp]
      exact (recognizeItemAux_guess env x models ⊥ none).1 hle
  · intro x w hw
    have hru : (recognizeItem env models x).2 =
        (recognizeItemAux env x models ⊥ none).2 := rfl
    by_cases hex : ∃ p ∈ models, (⊥ : WithBot ℚ) < recorded env p.2 x
    · obtain ⟨l1, p', l2, hsplit, hguess, hplt, hmax, hstrict⟩ :=
        (recognizeItemAux_guess env x models ⊥ none).2 hex
      rw [hru, hguess] at hw
      exact ⟨l1, p', l2, hsplit, (Option.some.inj hw).symm, hplt, hmax,
        hstrict⟩
    · push_neg at hex
      have hg := (recognizeItemAux_guess env x models ⊥ none).1 hex
      rw [hru, hg] at hw
      exact Option.noConfusion hw

/-- Witness for the amended C2: when every scoring call fails, the guess is
`None`. -/
theorem claim_C2_witness : (recognizeItem envN modelsA xlW).2 = none := by
  exact ((claim_C2_recognize_guess_amended envN modelsA [xlW]).2.1 xlW).mpr
    (by decide)

/-- C4: for a test corpus of `m` items and a mapping of `k` categories,
`recognize` returns a probabilities list of length `m` whose entry for item
`i` is the list of pairs (category, recorded score) in mapping iteration
order — exactly one entry per category — and a guesses list of length `m`,
both index-aligned with the corpus enumeration; a category whose scoring call
fails is recorded with negative infinity. -/
theorem claim_C4_recognize_shape (env : Env) (models : List (String × HMM))
    (items : List XLen) :
    (recognize env models items).1 =
      items.map (fun x => models.map (fun p => (p.1, recorded env p.2 x))) ∧
    (recognize env models items).1.length = items.length ∧
    (recognize env models items).2.length = items.length ∧
    (∀ (m : HMM) (x : XLen), env.score m x = none →
      recorded env m x = (⊥ : WithBot ℚ)) := by
  refine ⟨?_, ?_, ?_, ?_⟩
  · simp only [recognize, recognizeItem]
    simp only [recognizeItemAux_fst]
  · simp [recognize]
  · simp [recognize]
  · intro m x hsc
    simp [recorded, hsc]

/-- Witness for C4 at a concrete corpus: one item, one category whose scoring
fails. -/
theorem claim_C4_witness :
    (recognize envN modelsA [xlW]).1.length = 1 ∧
    recorded envN ⟨2, xlW⟩ xlW = (⊥ : WithBot ℚ) := by
  have h := claim_C4_recognize_shape envN modelsA [xlW]
  exact ⟨h.2.1, h.2.2.2 ⟨2, xlW⟩ xlW rfl⟩

end ASL
